import Mathlib

/-!
Shallow embedding of the `world-tree` service, covering:

* the custom RPC retry policy of `src/bin/tree_availability_service.rs`
  (`CustomRetryPolicy::should_retry`, `CustomRetryPolicy::backoff_hint`);
* the canonical root watcher of `src/crates/state_bridge/src/root.rs`
  (`WorldTreeRoot::spawn`);
* the bridge supervisor of `src/crates/state_bridge/src/lib.rs`
  (`StateBridgeService::spawn`);
* the sync tasks of `src/crates/tree_availability/src/world_tree/mod.rs`
  (`WorldTree::spawn`) and `src/src/claims/mod.rs` (`ClaimStorage::spawn`);
* the broadcast-channel delivery discipline used by the root watcher.

JSON strings are embedded at the level of their parse trees: a value of type
`Json` stands for the result of parsing a JSON text, and the payload of the
`SerdeJson` error variant carries `Option Json`, the parse of its `text`
field (`none` when the text is not well-formed JSON).  Machine integers are
`Nat`/`Int` with explicit wrap-around where the Rust arithmetic can wrap.
-/

/-- JSON numbers as stored by `serde_json`: a non-negative integer (`u64`),
a negative integer (`i64`), or a floating-point number.  Floats are modelled
exactly as rationals. -/
inductive JNum where
  | posInt (n : Nat)
  | negInt (z : Int)
  | float (q : Rat)
  deriving DecidableEq, Repr

/-- JSON parse trees, the image of `serde_json::Value`. -/
inductive Json where
  | null
  | bool (b : Bool)
  | num (n : JNum)
  | str (s : String)
  | arr (xs : List Json)
  | obj (kvs : List (String × Json))

/-- `serde_json::Number::as_u64`: succeeds exactly on the `u64`-backed
representation. -/
def JNum.as_u64 : JNum → Option Nat
  | .posInt n => some n
  | _ => none

/-- `serde_json::Number::as_f64`: every stored number converts to a float. -/
def JNum.as_f64 : JNum → Option Rat
  | .posInt n => some n
  | .negInt z => some z
  | .float q => some q

/-- Immutable string indexing on `serde_json::Value`: on an object, the value
bound to the key, or `Null` when the key is absent; `Null` on every non-object
value. -/
def Json.idx : Json → String → Json
  | .obj kvs, k => ((kvs.find? (fun p => p.1 == k)).map Prod.snd).getD .null
  | _, _ => .null

/-- `Value::as_u64` on a parse tree. -/
def Json.as_u64 : Json → Option Nat
  | .num n => n.as_u64
  | _ => none

/-- `Value::as_f64` on a parse tree. -/
def Json.as_f64 : Json → Option Rat
  | .num n => n.as_f64
  | _ => none

/-- `ethers::prelude::JsonRpcError`: `{ code: i64, message: String,
data: Option<Value> }`. -/
structure JsonRpcError where
  code : Int
  message : String
  data : Option Json

/-- `ethers::providers::HttpClientError`, restricted to the structure the
retry policy inspects: the HTTP status of a `reqwest` transport error, the
embedded JSON-RPC error, or (for `SerdeJson`) the parse of the offending
response text. -/
inductive HttpClientError where
  | reqwestError (status : Option Nat)
  | jsonRpcError (err : JsonRpcError)
  | serdeJson (textJson : Option Json)

/-- Substring containment, the meaning of Rust `str::contains(&str)`. -/
def strContains (s pat : String) : Bool :=
  s.data.tails.any (fun t => pat.data.isPrefixOf t)

/-- Deserialization of `JsonRpcError` by its serde derive: an object with an
integer `code` fitting `i64`, a string `message`, and an optional `data`
value (absent or JSON `null` becomes `none`). -/
def decodeJsonRpcError (j : Json) : Option JsonRpcError :=
  match j with
  | .obj kvs => do
    let codeV ← (kvs.find? (fun p => p.1 == "code")).map Prod.snd
    let code ← match codeV with
      | .num (.posInt n) => if n ≤ 2 ^ 63 - 1 then some (Int.ofNat n) else none
      | .num (.negInt z) => if -(2 ^ 63) ≤ z then some z else none
      | _ => none
    let msgV ← (kvs.find? (fun p => p.1 == "message")).map Prod.snd
    let message ← match msgV with
      | .str s => some s
      | _ => none
    let data : Option Json := match (kvs.find? (fun p => p.1 == "data")).map Prod.snd with
      | none => none
      | some .null => none
      | some v => some v
    some ⟨code, message, data⟩
  | _ => none

/-- Deserialization of the local helper `struct Resp { error: JsonRpcError }`
used by `should_retry` for the `SerdeJson` case. -/
def decodeResp (j : Json) : Option JsonRpcError :=
  match j with
  | .obj kvs => do
    let errV ← (kvs.find? (fun p => p.1 == "error")).map Prod.snd
    decodeJsonRpcError errV
  | _ => none

namespace CustomRetryPolicy

/-- Inner helper of `CustomRetryPolicy::should_retry`
(`src/bin/tree_availability_service.rs` lines 93-121). -/
def should_retry_json_rpc_error (err : JsonRpcError) : Bool :=
  if err.code = 429 then true
  else if err.code = -32603 then true
  else if err.code = -32005 then true
  else if err.code = -32016 ∧ strContains err.message "rate limit" then true
  else match err.message with
    | "header not found" => true
    | "daily request count exceeded, request rate limited" => true
    | _ => false

/-- `CustomRetryPolicy::should_retry`
(`src/bin/tree_availability_service.rs` lines 92-142). -/
def should_retry (error : HttpClientError) : Bool :=
  match error with
  | .reqwestError status => status == some 429
  | .jsonRpcError err => should_retry_json_rpc_error err
  | .serdeJson textJson =>
    match textJson.bind decodeResp with
    | some err => should_retry_json_rpc_error err
    | none => false

/-- Rust `f as u64` on a float `f`: truncation toward zero, saturating at `0`
below and at `u64::MAX` above. -/
def f64_as_u64 (q : Rat) : Nat :=
  if q ≤ 0 then 0 else min q.floor.toNat (2 ^ 64 - 1)

/-- `CustomRetryPolicy::backoff_hint`
(`src/bin/tree_availability_service.rs` lines 144-161), in whole seconds.
The float branch computes `seconds as u64 + 1`, a `u64` addition, hence the
wrap modulo `2 ^ 64`. -/
def backoff_hint (error : HttpClientError) : Option Nat :=
  match error with
  | .jsonRpcError err => do
    let data ← err.data
    let backoff_seconds := (data.idx "rate").idx "backoff_seconds"
    match backoff_seconds.as_u64 with
    | some seconds => some seconds
    | none =>
      match backoff_seconds.as_f64 with
      | some seconds => some ((f64_as_u64 seconds + 1) % 2 ^ 64)
      | none => none
  | _ => none

end CustomRetryPolicy

/-- The retry condition on a JSON-RPC error exactly as the specification
words it: code `429`, `-32603` or `-32005`; code `-32016` with a message
containing "rate limit"; or one of the two literal messages. -/
def specRetryCond (err : JsonRpcError) : Prop :=
  err.code = 429 ∨ err.code = -32603 ∨ err.code = -32005 ∨
    (err.code = -32016 ∧ strContains err.message "rate limit" = true) ∨
    err.message = "header not found" ∨
    err.message = "daily request count exceeded, request rate limited"

instance (err : JsonRpcError) : Decidable (specRetryCond err) := by
  unfold specRetryCond; infer_instance

/-- The retry classification exactly as the specification words it, per
error variant. -/
def specShouldRetry : HttpClientError → Prop
  | .reqwestError status => status = some 429
  | .jsonRpcError err => specRetryCond err
  | .serdeJson textJson =>
    ∃ err, textJson.bind decodeResp = some err ∧ specRetryCond err

/-- Claim-side condition under which no provider-supplied backoff exists:
the error is not a JSON-RPC error, or its `data` is absent, or
`data.rate.backoff_seconds` is not a JSON number. -/
def lacksNumericBackoff : HttpClientError → Prop
  | .jsonRpcError err =>
    match err.data with
    | none => True
    | some d => ∀ n : JNum, (d.idx "rate").idx "backoff_seconds" ≠ .num n
  | _ => True

theorem retry_json_iff (err : JsonRpcError) :
    CustomRetryPolicy.should_retry_json_rpc_error err = true ↔ specRetryCond err := by
  unfold CustomRetryPolicy.should_retry_json_rpc_error specRetryCond
  split_ifs with h1 h2 h3 h4
  · simp [h1]
  · simp [h2]
  · simp [h3]
  · simp [h4]
  · constructor
    · intro hm
      split at hm
      · simp_all
      · simp_all
      · exact absurd hm (by simp)
    · intro hor
      rcases hor with h | h | h | h | h | h
      · exact absurd h h1
      · exact absurd h h2
      · exact absurd h h3
      · exact absurd h h4
      · simp [h]
      · simp [h]

/-- C1: `CustomRetryPolicy.should_retry` returns `true` exactly on the
errors the specification enumerates: an HTTP response with status 429; a
JSON-RPC error with code 429, -32603 or -32005, or code -32016 with a
message containing "rate limit", or one of the two literal rate-limit
messages; or a JSON-deserialization error whose text parses as
`{error: JsonRpcError}` with the embedded error satisfying the same
conditions.  Every other error is not retried. -/
theorem should_retry_iff_spec (e : HttpClientError) :
    CustomRetryPolicy.should_retry e = true ↔ specShouldRetry e := by
  cases e with
  | reqwestError status =>
    simp [CustomRetryPolicy.should_retry, specShouldRetry]
  | jsonRpcError err =>
    simpa [CustomRetryPolicy.should_retry, specShouldRetry] using retry_json_iff err
  | serdeJson textJson =>
    simp only [CustomRetryPolicy.should_retry, specShouldRetry]
    cases h : textJson.bind decodeResp with
    | none => simp
    | some err =>
      simpa using retry_json_iff err

/-- C2 counterexample: on a JSON-RPC error carrying
`data.rate.backoff_seconds = 3.0` (a float), `backoff_hint` returns 4
seconds, not the 3 seconds the ceiling reading of the claim demands. -/
theorem backoff_hint_float_three_counterexample :
    CustomRetryPolicy.backoff_hint (.jsonRpcError ⟨-32005, "",
        some (Json.obj [("rate", Json.obj [("backoff_seconds",
          Json.num (JNum.float 3))])])⟩) = some 4 ∧
      CustomRetryPolicy.backoff_hint (.jsonRpcError ⟨-32005, "",
        some (Json.obj [("rate", Json.obj [("backoff_seconds",
          Json.num (JNum.float 3))])])⟩) ≠ some 3 := by
  refine ⟨rfl, fun h => ?_⟩
  have h4 : CustomRetryPolicy.backoff_hint (.jsonRpcError ⟨-32005, "",
      some (Json.obj [("rate", Json.obj [("backoff_seconds",
        Json.num (JNum.float 3))])])⟩) = some 4 := rfl
  exact absurd (h4.symm.trans h) (by decide)

/-- C2 amended: for a JSON-RPC error whose `data.rate.backoff_seconds` is
present, `backoff_hint` returns exactly that many seconds for an unsigned
integer value, and for a float value (non-negative and below `2 ^ 64 - 1`)
it returns the value truncated toward zero plus one second — so `2.5`
yields 3 seconds but `3.0` yields 4 seconds, not the ceiling. -/
theorem backoff_hint_spec_amended (err : JsonRpcError) (d : Json)
    (hd : err.data = some d) :
    (∀ n : Nat, (d.idx "rate").idx "backoff_seconds" = .num (.posInt n) →
      CustomRetryPolicy.backoff_hint (.jsonRpcError err) = some n) ∧
    (∀ q : Rat, (d.idx "rate").idx "backoff_seconds" = .num (.float q) →
      0 ≤ q → q < 2 ^ 64 - 1 →
      CustomRetryPolicy.backoff_hint (.jsonRpcError err) =
        some (q.floor.toNat + 1)) := by
  constructor
  · intro n hbs
    simp [CustomRetryPolicy.backoff_hint, hd, hbs, Json.as_u64, JNum.as_u64]
  · intro q hbs h0 hlt
    have hfl : (q.floor : ℚ) ≤ q := Rat.le_floor.mp le_rfl
    have hfl_lt : q.floor < 2 ^ 64 - 1 := by
      have : (q.floor : ℚ) < ((2 ^ 64 - 1 : ℤ) : ℚ) :=
        lt_of_le_of_lt hfl (by exact_mod_cast hlt)
      exact_mod_cast this
    have hmin : CustomRetryPolicy.f64_as_u64 q = q.floor.toNat := by
      unfold CustomRetryPolicy.f64_as_u64
      by_cases hq0 : q ≤ 0
      · have hq : q = 0 := le_antisymm hq0 h0
        subst hq
        simp [show ((0 : ℚ).floor = 0) from rfl]
      · simp only [hq0, if_false]
        omega
    have hmod : (q.floor.toNat + 1) % 2 ^ 64 = q.floor.toNat + 1 := by
      apply Nat.mod_eq_of_lt
      omega
    simp only [CustomRetryPolicy.backoff_hint, hd, hbs, Json.as_u64,
      JNum.as_u64, Json.as_f64, JNum.as_f64, Option.bind_eq_bind,
      Option.some_bind, hmin]
    rw [hmod]

/-- C2 amended, witness: `backoff_seconds = 2.5` yields a 3-second hint. -/
theorem backoff_hint_spec_amended_witness :
    CustomRetryPolicy.backoff_hint (.jsonRpcError ⟨-32005, "",
        some (Json.obj [("rate", Json.obj [("backoff_seconds",
          Json.num (JNum.float (5 / 2)))])])⟩) = some 3 := by
  have h := (backoff_hint_spec_amended ⟨-32005, "",
      some (Json.obj [("rate", Json.obj [("backoff_seconds",
        Json.num (JNum.float (5 / 2)))])])⟩
      (Json.obj [("rate", Json.obj [("backoff_seconds",
        Json.num (JNum.float (5 / 2)))])]) rfl).2 (5 / 2) rfl
      (by norm_num) (by norm_num)
  have hq : ((5 : ℚ) / 2).floor = 2 := by
    have h2 : (2 : ℤ) ≤ ((5 : ℚ) / 2).floor := Rat.le_floor.mpr (by norm_num)
    have h3 : ¬ (3 : ℤ) ≤ ((5 : ℚ) / 2).floor := by
      rw [Rat.le_floor]
      norm_num
    omega
  rw [h, hq]
  decide

/-- C9: whenever the error is not a JSON-RPC error (this covers an HTTP 429
transport response and every JSON-deserialization error), or its `data` is
absent, or `data.rate.backoff_seconds` is not a JSON number,
`backoff_hint` returns `none` — such errors get no provider-supplied
backoff. -/
theorem backoff_hint_none_of_lacks (e : HttpClientError)
    (h : lacksNumericBackoff e) :
    CustomRetryPolicy.backoff_hint e = none := by
  cases e with
  | reqwestError status => rfl
  | serdeJson t => rfl
  | jsonRpcError err =>
    cases hd : err.data with
    | none => simp [CustomRetryPolicy.backoff_hint, hd]
    | some d =>
      have hn : ∀ n : JNum, (d.idx "rate").idx "backoff_seconds" ≠ .num n := by
        simpa [lacksNumericBackoff, hd] using h
      cases hbs : (d.idx "rate").idx "backoff_seconds" <;>
        first
          | exact absurd hbs (hn _)
          | simp [CustomRetryPolicy.backoff_hint, hd, hbs, Json.as_u64,
              Json.as_f64]

/-- C9 witness: an HTTP 429 transport response receives no backoff hint. -/
theorem backoff_hint_none_of_lacks_witness :
    lacksNumericBackoff (.reqwestError (some 429)) ∧
      CustomRetryPolicy.backoff_hint (.reqwestError (some 429)) = none :=
  ⟨trivial, backoff_hint_none_of_lacks (.reqwestError (some 429)) trivial⟩

/-- A `TreeChanged(preRoot, kind, postRoot)` event of the identity-manager
contract (`src/crates/state_bridge/src/root.rs`).  The 256-bit roots are
modelled as naturals; `Uint::from_limbs` on the event's `post_root` limbs is
the identity on the represented value. -/
structure TreeChangedEvent where
  pre_root : Nat
  kind : Nat
  post_root : Nat
  deriving DecidableEq, Repr

/-- Observable actions of the `WorldTreeRoot::spawn` task: binding the next
`Some(Ok(event))` stream item, and a `root_tx.send` whose delivery status
(`true` when at least one subscriber is attached) the code discards. -/
inductive RootEv where
  | recv (ev : TreeChangedEvent)
  | send (root : Nat) (delivered : Bool)
  deriving DecidableEq, Repr

namespace WorldTreeRoot

/-- The `while let Some(Ok((event, _))) = event_stream.next().await` loop of
`WorldTreeRoot::spawn` (`src/crates/state_bridge/src/root.rs` lines 80-83)
over a stream embedded as a list of items (`Except.error` for a
`Some(Err(_))` item; the list's end is the stream yielding `None`).
`sendOk k` is the environment-determined delivery status of the `k`-th
broadcast send, which the source discards via `let _ = root_tx.send(..)`. -/
def watchLoop {E : Type} (sendOk : Nat → Bool) :
    Nat → List (Except E TreeChangedEvent) → List RootEv
  | _, [] => []
  | k, .ok ev :: rest =>
    .recv ev :: .send ev.post_root (sendOk k) :: watchLoop sendOk (k + 1) rest
  | _, .error _ :: _ => []

/-- The whole task body of `WorldTreeRoot::spawn`
(`src/crates/state_bridge/src/root.rs` lines 72-86): building the event
stream can fail (`filter.stream().await?`), and afterwards the watch loop
runs to completion and the task returns `Ok(())`. -/
def spawnTask {E : Type} (sendOk : Nat → Bool)
    (streamBuild : Except E (List (Except E TreeChangedEvent))) :
    List RootEv × Except E Unit :=
  match streamBuild with
  | .error e => ([], .error e)
  | .ok items => (watchLoop sendOk 0 items, .ok ())

end WorldTreeRoot

/-- The roots pushed to the broadcast channel, in order, along a trace. -/
def sentRoots (tr : List RootEv) : List Nat :=
  tr.filterMap (fun e => match e with
    | .send r _ => some r
    | _ => none)

/-- The events received from the stream, in order, along a trace. -/
def recvEvents (tr : List RootEv) : List TreeChangedEvent :=
  tr.filterMap (fun e => match e with
    | .recv ev => some ev
    | _ => none)

/-- The longest prefix of `Ok` items of the stream: exactly the events the
`while let Some(Ok(..))` loop binds before it stops at the first error item
or at stream end. -/
def okPrefix {E : Type} : List (Except E TreeChangedEvent) → List TreeChangedEvent
  | [] => []
  | .ok ev :: rest => ev :: okPrefix rest
  | .error _ :: _ => []

theorem watchLoop_recv_sent {E : Type} (sendOk : Nat → Bool) :
    ∀ (k : Nat) (items : List (Except E TreeChangedEvent)),
      recvEvents (WorldTreeRoot.watchLoop sendOk k items) = okPrefix items ∧
      sentRoots (WorldTreeRoot.watchLoop sendOk k items) =
        (okPrefix items).map TreeChangedEvent.post_root := by
  intro k items
  induction items generalizing k with
  | nil => simp [WorldTreeRoot.watchLoop, okPrefix, recvEvents, sentRoots]
  | cons hd rest ih =>
    cases hd with
    | error e =>
      simp [WorldTreeRoot.watchLoop, okPrefix, recvEvents, sentRoots]
    | ok ev =>
      have h := ih (k + 1)
      simp only [WorldTreeRoot.watchLoop, okPrefix, recvEvents, sentRoots,
        List.filterMap_cons, List.map_cons] at h ⊢
      exact ⟨by rw [h.1], by rw [h.2]⟩

/-- C3: along any run of the `WorldTreeRoot::spawn` watch loop, the roots
sent to the broadcast channel are exactly the `post_root` values of the
events received from the stream, one send per received event, in the order
the events were received. -/
theorem root_watcher_sends_post_roots {E : Type} (sendOk : Nat → Bool)
    (items : List (Except E TreeChangedEvent)) :
    sentRoots (WorldTreeRoot.spawnTask sendOk (.ok items)).1 =
      (recvEvents (WorldTreeRoot.spawnTask sendOk (.ok items)).1).map
        TreeChangedEvent.post_root := by
  have h := watchLoop_recv_sent (E := E) sendOk 0 items
  simp only [WorldTreeRoot.spawnTask]
  rw [h.1, h.2]

/-- C4 counterexample: on a stream whose first item is an error followed by
a further event with `post_root = 7`, the watcher publishes nothing and the
task completes with `Ok(())` — it does not rebuild the subscription and does
not publish the subsequent root. -/
theorem root_watcher_no_reconnect_counterexample :
    WorldTreeRoot.spawnTask (E := Unit) (fun _ => true)
        (.ok [.error (), .ok ⟨0, 0, 7⟩]) = ([], .ok ()) ∧
      sentRoots (WorldTreeRoot.spawnTask (E := Unit) (fun _ => true)
        (.ok [.error (), .ok ⟨0, 0, 7⟩])).1 = [] := by
  exact ⟨rfl, rfl⟩

/-- C4 amended: when the event stream terminates or yields an error item,
the `WorldTreeRoot::spawn` task exits its read loop and completes with
`Ok(())`; it does not rebuild the subscription, performs no backoff, and
publishes exactly the roots of the events preceding the first error or the
stream's end. -/
theorem root_watcher_exits_on_stream_end {E : Type} (sendOk : Nat → Bool)
    (items : List (Except E TreeChangedEvent)) :
    (WorldTreeRoot.spawnTask sendOk (.ok items)).2 = .ok () ∧
      sentRoots (WorldTreeRoot.spawnTask sendOk (.ok items)).1 =
        (okPrefix items).map TreeChangedEvent.post_root := by
  exact ⟨rfl, (watchLoop_recv_sent sendOk 0 items).2⟩

/-- C10: the watcher discards every broadcast-send result: the received
events, the sent roots and the task's final result are all independent of
the delivery statuses (hence of the number of attached subscribers), and in
particular a run where every send fails still processes the whole stream
and never produces an error. -/
theorem root_watcher_ignores_send_result {E : Type} (f g : Nat → Bool)
    (streamBuild : Except E (List (Except E TreeChangedEvent))) :
    (WorldTreeRoot.spawnTask f streamBuild).2 =
        (WorldTreeRoot.spawnTask g streamBuild).2 ∧
      sentRoots (WorldTreeRoot.spawnTask f streamBuild).1 =
        sentRoots (WorldTreeRoot.spawnTask g streamBuild).1 ∧
      recvEvents (WorldTreeRoot.spawnTask f streamBuild).1 =
        recvEvents (WorldTreeRoot.spawnTask g streamBuild).1 := by
  cases streamBuild with
  | error e => exact ⟨rfl, rfl, rfl⟩
  | ok items =>
    refine ⟨rfl, ?_, ?_⟩
    · show sentRoots (WorldTreeRoot.watchLoop f 0 items) =
        sentRoots (WorldTreeRoot.watchLoop g 0 items)
      rw [(watchLoop_recv_sent f 0 items).2, (watchLoop_recv_sent g 0 items).2]
    · show recvEvents (WorldTreeRoot.watchLoop f 0 items) =
        recvEvents (WorldTreeRoot.watchLoop g 0 items)
      rw [(watchLoop_recv_sent f 0 items).1, (watchLoop_recv_sent g 0 items).1]

/-- Modelled from the spec: the constant `SYNC_TO_HEAD_SLEEP_SECONDS` is
declared in `crate::tree`, whose source file is not part of this snapshot
(only its importer `src/src/claims/mod.rs` is).  The spec calls it "a fixed
interval" slept in steady state, and the `WorldTree::spawn` task under
`src/crates/tree_availability/src/world_tree/mod.rs` realises the same
steady-state interval as a hard-coded 5 seconds, so the constant is
modelled as 5. -/
def SYNC_TO_HEAD_SLEEP_SECONDS : Nat := 5

/-- Observable actions of a sync task (`WorldTree::spawn`,
`ClaimStorage::spawn`): the `i`-th completed `sync_to_head` call, the store
of `true` into the `synced` flag, a timer sleep in seconds, and returning an
error from the task. -/
inductive SyncEv (E : Type) where
  | callSync (i : Nat)
  | setSynced
  | sleep (secs : Nat)
  | retErr (e : E)

/-- The number of `setSynced` stores along a trace. -/
def countSynced {E : Type} (tr : List (SyncEv E)) : Nat :=
  tr.countP (fun x => match x with
    | .setSynced => true
    | _ => false)

/-- The steady-state `loop { sync_to_head().await?; sleep(..).await }` shared
by `WorldTree::spawn` (lines 80-85) and `ClaimStorage::spawn` (lines
113-120).  `res i` is the result of the `i`-th `sync_to_head` call, `fuel`
bounds how many iterations are observed (the Rust loop has no exit of its
own), and the second component is `none` while the loop is still running —
an `Except.ok` task result is never produced by the loop. -/
def syncLoop {E : Type} (res : Nat → Except E Unit) (sleepSecs : Nat) :
    Nat → Nat → List (SyncEv E) × Option (Except E Unit)
  | 0, _ => ([], none)
  | fuel + 1, i =>
    match res i with
    | .error e => ([.callSync i, .retErr e], some (.error e))
    | .ok _ =>
      let r := syncLoop res sleepSecs fuel (i + 1)
      (.callSync i :: .sleep sleepSecs :: r.1, r.2)

namespace WorldTree

/-- The task body of `WorldTree::spawn`
(`src/crates/tree_availability/src/world_tree/mod.rs` lines 76-86): a first
`sync_to_head` whose error is propagated, then `synced.store(true)`, then
the steady-state loop with its hard-coded 5-second sleep. -/
def spawnTask {E : Type} (res : Nat → Except E Unit) (fuel : Nat) :
    List (SyncEv E) × Option (Except E Unit) :=
  match res 0 with
  | .error e => ([.callSync 0, .retErr e], some (.error e))
  | .ok _ =>
    let r := syncLoop res 5 fuel 1
    (.callSync 0 :: .setSynced :: r.1, r.2)

end WorldTree

namespace ClaimStorage

/-- The task body of `ClaimStorage::spawn` (`src/src/claims/mod.rs` lines
106-121): a first timed `sync_to_head` whose error is propagated, then the
steady-state loop sleeping `SYNC_TO_HEAD_SLEEP_SECONDS`.  No `synced` flag
is stored. -/
def spawnTask {E : Type} (res : Nat → Except E Unit) (fuel : Nat) :
    List (SyncEv E) × Option (Except E Unit) :=
  match res 0 with
  | .error e => ([.callSync 0, .retErr e], some (.error e))
  | .ok _ =>
    let r := syncLoop res SYNC_TO_HEAD_SLEEP_SECONDS fuel 1
    (.callSync 0 :: r.1, r.2)

end ClaimStorage

theorem syncLoop_no_synced {E : Type} (res : Nat → Except E Unit)
    (sleepSecs : Nat) :
    ∀ (fuel i : Nat), countSynced (syncLoop res sleepSecs fuel i).1 = 0 := by
  intro fuel
  induction fuel with
  | zero => intro i; simp [syncLoop, countSynced]
  | succ n ih =>
    intro i
    cases h : res i with
    | error e => simp [syncLoop, h, countSynced]
    | ok u =>
      have := ih (i + 1)
      simp only [syncLoop, h, countSynced, List.countP_cons] at this ⊢
      simpa using this

theorem syncLoop_exit_is_error {E : Type} (res : Nat → Except E Unit)
    (sleepSecs : Nat) :
    ∀ (fuel i : Nat) (r : Except E Unit),
      (syncLoop res sleepSecs fuel i).2 = some r →
      ∃ j e, r = .error e ∧ res j = .error e := by
  intro fuel
  induction fuel with
  | zero => intro i r h; simp [syncLoop] at h
  | succ n ih =>
    intro i r h
    cases hres : res i with
    | error e =>
      simp only [syncLoop, hres, Option.some_inj] at h
      exact ⟨i, e, h.symm, hres⟩
    | ok u =>
      cases u
      simp only [syncLoop, hres] at h
      exact ih (i + 1) r h

theorem syncLoop_sleeps {E : Type} (res : Nat → Except E Unit)
    (sleepSecs : Nat) :
    ∀ (fuel i s : Nat), SyncEv.sleep s ∈ (syncLoop res sleepSecs fuel i).1 →
      s = sleepSecs := by
  intro fuel
  induction fuel with
  | zero => intro i s h; simp [syncLoop] at h
  | succ n ih =>
    intro i s h
    cases hres : res i with
    | error e =>
      simp only [syncLoop, hres, List.mem_cons, List.mem_singleton] at h
      rcases h with h | h | h <;> simp_all
    | ok u =>
      cases u
      simp only [syncLoop, hres, List.mem_cons] at h
      rcases h with h | h | h
      · exact absurd h (by simp)
      · injection h
      · exact ih (i + 1) s h

theorem syncLoop_all_ok {E : Type} (res : Nat → Except E Unit)
    (sleepSecs : Nat) (hok : ∀ i, res i = .ok ()) :
    ∀ (fuel i : Nat),
      (syncLoop res sleepSecs fuel i).1 =
        (List.range fuel).flatMap
          (fun j => [SyncEv.callSync (i + j), SyncEv.sleep sleepSecs]) ∧
      (syncLoop res sleepSecs fuel i).2 = none := by
  intro fuel
  induction fuel with
  | zero => intro i; simp [syncLoop]
  | succ n ih =>
    intro i
    have h := ih (i + 1)
    constructor
    · simp only [syncLoop, hok i, List.range_succ_eq_map, List.flatMap_cons,
        Nat.add_zero, h.1]
      simp [List.flatMap_map, Nat.add_comm, Nat.add_assoc, Nat.add_left_comm]
    · simp only [syncLoop, hok i]
      exact h.2

theorem worldTree_exit_is_error {E : Type} (res : Nat → Except E Unit)
    (fuel : Nat) (r : Except E Unit)
    (h : (WorldTree.spawnTask res fuel).2 = some r) :
    ∃ j e, r = .error e ∧ res j = .error e := by
  cases hres : res 0 with
  | error e =>
    simp only [WorldTree.spawnTask, hres, Option.some_inj] at h
    exact ⟨0, e, h.symm, hres⟩
  | ok u =>
    cases u
    simp only [WorldTree.spawnTask, hres] at h
    exact syncLoop_exit_is_error res 5 fuel 1 r h

theorem claimStorage_exit_is_error {E : Type} (res : Nat → Except E Unit)
    (fuel : Nat) (r : Except E Unit)
    (h : (ClaimStorage.spawnTask res fuel).2 = some r) :
    ∃ j e, r = .error e ∧ res j = .error e := by
  cases hres : res 0 with
  | error e =>
    simp only [ClaimStorage.spawnTask, hres, Option.some_inj] at h
    exact ⟨0, e, h.symm, hres⟩
  | ok u =>
    cases u
    simp only [ClaimStorage.spawnTask, hres] at h
    exact syncLoop_exit_is_error res SYNC_TO_HEAD_SLEEP_SECONDS fuel 1 r h

theorem worldTree_sleeps {E : Type} (res : Nat → Except E Unit)
    (fuel s : Nat) (h : SyncEv.sleep s ∈ (WorldTree.spawnTask res fuel).1) :
    s = SYNC_TO_HEAD_SLEEP_SECONDS := by
  cases hres : res 0 with
  | error e =>
    simp only [WorldTree.spawnTask, hres, List.mem_cons,
      List.mem_singleton] at h
    rcases h with h | h | h <;> simp_all
  | ok u =>
    cases u
    simp only [WorldTree.spawnTask, hres, List.mem_cons] at h
    rcases h with h | h | h
    · exact absurd h (by simp)
    · exact absurd h (by simp)
    · exact syncLoop_sleeps res 5 fuel 1 s h

theorem claimStorage_sleeps {E : Type} (res : Nat → Except E Unit)
    (fuel s : Nat) (h : SyncEv.sleep s ∈ (ClaimStorage.spawnTask res fuel).1) :
    s = SYNC_TO_HEAD_SLEEP_SECONDS := by
  cases hres : res 0 with
  | error e =>
    simp only [ClaimStorage.spawnTask, hres, List.mem_cons,
      List.mem_singleton] at h
    rcases h with h | h | h <;> simp_all
  | ok u =>
    cases u
    simp only [ClaimStorage.spawnTask, hres, List.mem_cons] at h
    rcases h with h | h
    · exact absurd h (by simp)
    · exact syncLoop_sleeps res SYNC_TO_HEAD_SLEEP_SECONDS fuel 1 s h

/-- C5: in the task spawned by `WorldTree::spawn`, the `synced` flag is
never stored before the first `sync_to_head` call completes; if that first
call errors, no store happens and the task returns that error; after the
first successful completion the flag is set exactly once, immediately after
the first call, and never again. -/
theorem world_tree_synced_flag {E : Type} (res : Nat → Except E Unit)
    (fuel : Nat) :
    (∀ e, res 0 = .error e →
      countSynced (WorldTree.spawnTask res fuel).1 = 0 ∧
      (WorldTree.spawnTask res fuel).2 = some (.error e)) ∧
    (res 0 = .ok () →
      countSynced (WorldTree.spawnTask res fuel).1 = 1 ∧
      (WorldTree.spawnTask res fuel).1.head? = some (SyncEv.callSync 0) ∧
      (WorldTree.spawnTask res fuel).1[1]? = some SyncEv.setSynced) := by
  constructor
  · intro e h
    constructor
    · simp [WorldTree.spawnTask, h, countSynced]
    · simp [WorldTree.spawnTask, h]
  · intro h
    have h0 := syncLoop_no_synced res 5 fuel 1
    refine ⟨?_, ?_, ?_⟩
    · simp only [WorldTree.spawnTask, h, countSynced, List.countP_cons] at h0 ⊢
      simpa using h0
    · simp [WorldTree.spawnTask, h]
    · simp [WorldTree.spawnTask, h]

/-- C5 witness: with an error-free first sync, the flag is stored exactly
once, right after the first call. -/
theorem world_tree_synced_flag_witness :
    countSynced (WorldTree.spawnTask (E := Unit) (fun _ => .ok ()) 1).1 = 1 ∧
      (WorldTree.spawnTask (E := Unit)
        (fun _ => .ok ()) 1).1[1]? = some SyncEv.setSynced := by
  have h := (world_tree_synced_flag (E := Unit) (fun _ => .ok ()) 1).2 rfl
  exact ⟨h.1, h.2.2⟩

/-- C7: both sync tasks (`WorldTree::spawn` and `ClaimStorage::spawn`)
never complete with `Ok` from steady state; the loop is left only by
propagating an error of some `sync_to_head` call; every timer sleep along
either trace equals the fixed `SYNC_TO_HEAD_SLEEP_SECONDS`; and an
error-free run is still running after any number of iterations, its steady
state being the strict alternation of a `sync_to_head` call and one
fixed-interval sleep. -/
theorem sync_tasks_loop_forever {E : Type} (res : Nat → Except E Unit)
    (fuel : Nat) :
    ((WorldTree.spawnTask res fuel).2 ≠ some (.ok ()) ∧
      (ClaimStorage.spawnTask res fuel).2 ≠ some (.ok ())) ∧
    ((∀ r, (WorldTree.spawnTask res fuel).2 = some r →
      ∃ j e, r = .error e ∧ res j = .error e) ∧
      (∀ r, (ClaimStorage.spawnTask res fuel).2 = some r →
        ∃ j e, r = .error e ∧ res j = .error e)) ∧
    ((∀ s, SyncEv.sleep s ∈ (WorldTree.spawnTask res fuel).1 →
      s = SYNC_TO_HEAD_SLEEP_SECONDS) ∧
      (∀ s, SyncEv.sleep s ∈ (ClaimStorage.spawnTask res fuel).1 →
        s = SYNC_TO_HEAD_SLEEP_SECONDS)) ∧
    ((∀ i, res i = .ok ()) →
      (WorldTree.spawnTask res fuel).2 = none ∧
      (ClaimStorage.spawnTask res fuel).2 = none ∧
      (WorldTree.spawnTask res fuel).1 =
        SyncEv.callSync 0 :: SyncEv.setSynced ::
          (List.range fuel).flatMap (fun j =>
            [SyncEv.callSync (1 + j),
              SyncEv.sleep SYNC_TO_HEAD_SLEEP_SECONDS]) ∧
      (ClaimStorage.spawnTask res fuel).1 =
        SyncEv.callSync 0 ::
          (List.range fuel).flatMap (fun j =>
            [SyncEv.callSync (1 + j),
              SyncEv.sleep SYNC_TO_HEAD_SLEEP_SECONDS])) := by
  refine ⟨⟨?_, ?_⟩, ⟨worldTree_exit_is_error res fuel,
    claimStorage_exit_is_error res fuel⟩,
    ⟨worldTree_sleeps res fuel, claimStorage_sleeps res fuel⟩, ?_⟩
  · intro h
    rcases worldTree_exit_is_error res fuel _ h with ⟨j, e, he, _⟩
    exact Except.noConfusion he
  · intro h
    rcases claimStorage_exit_is_error res fuel _ h with ⟨j, e, he, _⟩
    exact Except.noConfusion he
  · intro hok
    have hw := syncLoop_all_ok res 5 (fun i => hok i) fuel 1
    have hc := syncLoop_all_ok res SYNC_TO_HEAD_SLEEP_SECONDS
      (fun i => hok i) fuel 1
    refine ⟨?_, ?_, ?_, ?_⟩
    · simp only [WorldTree.spawnTask, hok 0]
      exact hw.2
    · simp only [ClaimStorage.spawnTask, hok 0]
      exact hc.2
    · simp only [WorldTree.spawnTask, hok 0]
      rw [hw.1]
      rfl
    · simp only [ClaimStorage.spawnTask, hok 0]
      rw [hc.1]

/-- C7 witness: an error-free run with one observed steady-state iteration
is still running and its trace is the expected alternation. -/
theorem sync_tasks_loop_forever_witness :
    (WorldTree.spawnTask (E := Unit) (fun _ => .ok ()) 1).2 = none ∧
      (WorldTree.spawnTask (E := Unit) (fun _ => .ok ()) 1).1 =
        [SyncEv.callSync 0, SyncEv.setSynced, SyncEv.callSync 1,
          SyncEv.sleep 5] := by
  have h := (sync_tasks_loop_forever (E := Unit)
    (fun _ => .ok ()) 1).2.2.2 (fun _ => rfl)
  refine ⟨h.1, ?_⟩
  rw [h.2.2.1]
  rfl

/-- The subscription side of `tokio::sync::broadcast::Sender`: `subscribe()`
hands out a fresh receiver, modelled by a counter of receiver identities. -/
structure BroadcastSender where
  nextRx : Nat
  deriving DecidableEq, Repr

/-- `Sender::subscribe`: returns a fresh receiver identity and the advanced
sender. -/
def BroadcastSender.subscribe (c : BroadcastSender) : Nat × BroadcastSender :=
  (c.nextRx, ⟨c.nextRx + 1⟩)

/-- A task handle recorded by `StateBridgeService::spawn`: the canonical
root watcher's handle, or a bridge task's handle together with the receiver
identity of the broadcast subscription it was given. -/
inductive Handle (B : Type) where
  | rootWatcher
  | bridge (b : B) (rx : Nat)

/-- `StateBridgeService` (`src/crates/state_bridge/src/lib.rs` lines 24-28):
the canonical root watcher is represented by its broadcast sender
`root_tx`, alongside the added bridges and the recorded task handles. -/
structure StateBridgeService (B : Type) where
  state_bridges : List B
  handles : List (Handle B)
  root_tx : BroadcastSender

/-- `StateBridgeService::new` / `new_from_parts`: empty bridge and handle
vectors around a fresh canonical root watcher. -/
def StateBridgeService.new (B : Type) (tx : BroadcastSender) :
    StateBridgeService B :=
  ⟨[], [], tx⟩

/-- `StateBridgeService::add_state_bridge`: `Vec::push` onto
`state_bridges`. -/
def StateBridgeService.add_state_bridge {B : Type} (s : StateBridgeService B)
    (b : B) : StateBridgeService B :=
  { s with state_bridges := s.state_bridges ++ [b] }

/-- The `for bridge in self.state_bridges.iter()` loop of
`StateBridgeService::spawn` (`src/crates/state_bridge/src/lib.rs` lines
62-65): one handle per bridge, each given a fresh subscription of
`root_tx`. -/
def spawnBridges {B : Type} (tx : BroadcastSender) :
    List B → List (Handle B) × BroadcastSender
  | [] => ([], tx)
  | b :: rest =>
    let p := tx.subscribe
    let r := spawnBridges p.2 rest
    (.bridge b p.1 :: r.1, r.2)

/-- `StateBridgeService::spawn` (`src/crates/state_bridge/src/lib.rs` lines
59-68): push the canonical root watcher's handle, then one handle per
bridge in order, and return `Ok(())`. -/
def StateBridgeService.spawn {B : Type} (s : StateBridgeService B) :
    StateBridgeService B × Except Unit Unit :=
  let r := spawnBridges s.root_tx s.state_bridges
  ({ s with
      handles := s.handles ++ (Handle.rootWatcher :: r.1),
      root_tx := r.2 }, .ok ())

theorem spawnBridges_eq {B : Type} :
    ∀ (bs : List B) (n : Nat),
      spawnBridges ⟨n⟩ bs =
        ((bs.enumFrom n).map (fun p => Handle.bridge p.2 p.1),
          ⟨n + bs.length⟩) := by
  intro bs
  induction bs with
  | nil => intro n; simp [spawnBridges, List.enumFrom]
  | cons b rest ih =>
    intro n
    simp only [spawnBridges, BroadcastSender.subscribe, ih (n + 1),
      List.enumFrom, List.map_cons, List.length_cons]
    have hn : n + 1 + rest.length = n + (rest.length + 1) := by omega
    rw [hn]

theorem foldl_add_state_bridge {B : Type} :
    ∀ (bs : List B) (s : StateBridgeService B),
      bs.foldl StateBridgeService.add_state_bridge s =
        { s with state_bridges := s.state_bridges ++ bs } := by
  intro bs
  induction bs with
  | nil => intro s; simp
  | cons b rest ih =>
    intro s
    simp only [List.foldl_cons, ih, StateBridgeService.add_state_bridge,
      List.append_assoc, List.singleton_append]

/-- C6: spawning a `StateBridgeService` built from `n` added bridges records
exactly `n + 1` handles — the canonical root watcher's first, then one
handle per bridge in insertion order, each bridge holding a fresh, pairwise
distinct subscription of the root watcher's broadcast channel — returns
`Ok(())`, and leaves `state_bridges` unchanged. -/
theorem state_bridge_service_spawn_spec {B : Type} (tx : BroadcastSender)
    (bs : List B) :
    ((bs.foldl StateBridgeService.add_state_bridge
        (StateBridgeService.new B tx)).spawn).2 = .ok () ∧
      ((bs.foldl StateBridgeService.add_state_bridge
        (StateBridgeService.new B tx)).spawn).1.state_bridges = bs ∧
      ((bs.foldl StateBridgeService.add_state_bridge
        (StateBridgeService.new B tx)).spawn).1.handles =
        Handle.rootWatcher ::
          (bs.enumFrom tx.nextRx).map (fun p => Handle.bridge p.2 p.1) ∧
      ((bs.foldl StateBridgeService.add_state_bridge
        (StateBridgeService.new B tx)).spawn).1.handles.length =
        bs.length + 1 := by
  have hs : bs.foldl StateBridgeService.add_state_bridge
      (StateBridgeService.new B tx) = ⟨bs, [], tx⟩ := by
    rw [foldl_add_state_bridge]
    simp [StateBridgeService.new]
  rw [hs]
  refine ⟨rfl, rfl, ?_, ?_⟩
  · show [] ++ (Handle.rootWatcher :: (spawnBridges tx bs).1) = _
    rw [show (tx : BroadcastSender) = ⟨tx.nextRx⟩ from rfl,
      spawnBridges_eq bs tx.nextRx]
    simp
  · show ([] ++ (Handle.rootWatcher :: (spawnBridges tx bs).1)).length = _
    rw [show (tx : BroadcastSender) = ⟨tx.nextRx⟩ from rfl,
      spawnBridges_eq bs tx.nextRx]
    simp [List.enumFrom_length]

/-- An interleaving step on the root broadcast channel: the watcher
publishing a root, or the consumer under study performing one `recv`. -/
inductive ChanOp (H : Type) where
  | publish (h : H)
  | recvOp

/-- Modelled from the spec: the `RootBroadcast` delivery discipline
(`tokio::sync::broadcast`, whose implementation lives outside this
repository).  Per the spec, the channel is capacity-bounded and lossy: a
consumer reads values in publication order; one that falls behind by more
than the capacity `cap` observes a lag signal and skips forward to the
oldest retained value instead of receiving anything.  `chanRun cap ops pubs
pos` runs the interleaving `ops` from already-published list `pubs` and
consumer cursor `pos`, returning the final published list and the
`(publication index, value)` pairs the consumer received, in order. -/
def chanRun {H : Type} (cap : Nat) :
    List (ChanOp H) → List H → Nat → List H × List (Nat × H)
  | [], pubs, _ => (pubs, [])
  | .publish h :: ops, pubs, pos => chanRun cap ops (pubs ++ [h]) pos
  | .recvOp :: ops, pubs, pos =>
    if hlt : pos < pubs.length then
      if pubs.length - pos > cap then
        chanRun cap ops pubs (pubs.length - cap)
      else
        let r := chanRun cap ops pubs (pos + 1)
        (r.1, (pos, pubs.get ⟨pos, hlt⟩) :: r.2)
    else
      chanRun cap ops pubs pos

/-- The values published along an interleaving, in order. -/
def publishedOf {H : Type} (ops : List (ChanOp H)) : List H :=
  ops.filterMap (fun op => match op with
    | .publish h => some h
    | _ => none)

theorem chanRun_pubs {H : Type} (cap : Nat) :
    ∀ (ops : List (ChanOp H)) (pubs : List H) (pos : Nat),
      (chanRun cap ops pubs pos).1 = pubs ++ publishedOf ops := by
  intro ops
  induction ops with
  | nil => intro pubs pos; simp [chanRun, publishedOf]
  | cons op rest ih =>
    intro pubs pos
    cases op with
    | publish h =>
      simp only [chanRun, ih, publishedOf, List.filterMap_cons,
        List.append_assoc, List.singleton_append]
    | recvOp =>
      have hpub : publishedOf (ChanOp.recvOp :: rest) = publishedOf rest := by
        simp [publishedOf]
      rw [hpub]
      simp only [chanRun]
      split_ifs with hlt hlag
      · exact ih pubs (pubs.length - cap)
      · exact ih pubs (pos + 1)
      · exact ih pubs pos

theorem chanRun_recv_mono {H : Type} (cap : Nat) :
    ∀ (ops : List (ChanOp H)) (pubs : List H) (pos : Nat),
      (∀ p ∈ (chanRun cap ops pubs pos).2,
        pos ≤ p.1 ∧ (chanRun cap ops pubs pos).1[p.1]? = some p.2) ∧
      List.Pairwise (fun a b => a.1 < b.1) (chanRun cap ops pubs pos).2 := by
  intro ops
  induction ops with
  | nil => intro pubs pos; simp [chanRun]
  | cons op rest ih =>
    intro pubs pos
    cases op with
    | publish h => exact ih (pubs ++ [h]) pos
    | recvOp =>
      simp only [chanRun]
      split_ifs with hlt hlag
      · have h := ih pubs (pubs.length - cap)
        refine ⟨fun p hp => ⟨?_, (h.1 p hp).2⟩, h.2⟩
        have := (h.1 p hp).1
        omega
      · have h := ih pubs (pos + 1)
        constructor
        · intro p hp
          rcases List.mem_cons.mp hp with hp | hp
          · subst hp
            refine ⟨le_rfl, ?_⟩
            show (chanRun cap rest pubs (pos + 1)).1[pos]? =
              some (pubs.get ⟨pos, hlt⟩)
            rw [chanRun_pubs, List.getElem?_append_left hlt,
              List.getElem?_eq_getElem hlt, List.get_eq_getElem]
          · have hm := h.1 p hp
            exact ⟨by omega, hm.2⟩
        · rw [List.pairwise_cons]
          exact ⟨fun p hp => by have := (h.1 p hp).1; omega, h.2⟩
      · exact ih pubs pos

/-- C8: from an empty channel, along any interleaving of publishes and
receives of a consumer, the `(publication index, root)` pairs the consumer
receives are strictly increasing in publication index — it never receives
a root that was published earlier than a root it has already received —
and each received root is exactly the root that was published at its
index. -/
theorem root_broadcast_in_order {H : Type} (cap : Nat)
    (ops : List (ChanOp H)) :
    List.Pairwise (fun a b => a.1 < b.1) (chanRun cap ops [] 0).2 ∧
      ∀ p ∈ (chanRun cap ops [] 0).2,
        (chanRun cap ops [] 0).1[p.1]? = some p.2 := by
  have h := chanRun_recv_mono cap ops [] 0
  exact ⟨h.2, fun p hp => (h.1 p hp).2⟩
